import Mathlib

/-!
# Cortex operator: content hashing, storage keys and context identity

A shallow embedding of `pkg/lib/hash/hash.go` and
`pkg/operator/context/context.go`.

Go strings are modelled by Lean `String` (text made of characters; the
separator `/` and the dot are single characters), byte slices by lists of
naturals reduced modulo 256, and 32-bit words by naturals reduced modulo
`2 ^ 32`.
-/

set_option maxRecDepth 100000

/-! ## crypto/sha256 (Go standard library), after FIPS 180-4 -/

namespace sha256

/-- Round constants `_K` of SHA-256. -/
def K : List Nat :=
  [0x428a2f98, 0x71374491, 0xb5c0fbcf, 0xe9b5dba5, 0x3956c25b, 0x59f111f1, 0x923f82a4, 0xab1c5ed5,
   0xd807aa98, 0x12835b01, 0x243185be, 0x550c7dc3, 0x72be5d74, 0x80deb1fe, 0x9bdc06a7, 0xc19bf174,
   0xe49b69c1, 0xefbe4786, 0x0fc19dc6, 0x240ca1cc, 0x2de92c6f, 0x4a7484aa, 0x5cb0a9dc, 0x76f988da,
   0x983e5152, 0xa831c66d, 0xb00327c8, 0xbf597fc7, 0xc6e00bf3, 0xd5a79147, 0x06ca6351, 0x14292967,
   0x27b70a85, 0x2e1b2138, 0x4d2c6dfc, 0x53380d13, 0x650a7354, 0x766a0abb, 0x81c2c92e, 0x92722c85,
   0xa2bfe8a1, 0xa81a664b, 0xc24b8b70, 0xc76c51a3, 0xd192e819, 0xd6990624, 0xf40e3585, 0x106aa070,
   0x19a4c116, 0x1e376c08, 0x2748774c, 0x34b0bcb5, 0x391c0cb3, 0x4ed8aa4a, 0x5b9cca4f, 0x682e6ff3,
   0x748f82ee, 0x78a5636f, 0x84c87814, 0x8cc70208, 0x90befffa, 0xa4506ceb, 0xbef9a3f7, 0xc67178f2]

/-- Eight 32-bit chaining words `h[0..7]` of a digest. -/
structure Digest where
  h0 : Nat
  h1 : Nat
  h2 : Nat
  h3 : Nat
  h4 : Nat
  h5 : Nat
  h6 : Nat
  h7 : Nat
  deriving DecidableEq, Repr

/-- Initial chaining value. -/
def init : Digest :=
  ⟨0x6a09e667, 0xbb67ae85, 0x3c6ef372, 0xa54ff53a, 0x510e527f, 0x9b05688c, 0x1f83d9ab, 0x5be0cd19⟩

/-- Addition of 32-bit words. -/
def add32 (a b : Nat) : Nat := (a + b) % 2 ^ 32

/-- Rotation to the right by `n` bits: `bits.RotateLeft32(x, -n)`. -/
def rotr (x n : Nat) : Nat := ((x >>> n) ||| (x <<< (32 - n))) % 2 ^ 32

/-- Bitwise complement of a 32-bit word. -/
def not32 (x : Nat) : Nat := (x % 2 ^ 32) ^^^ 0xffffffff

/-- Big-endian word from four bytes. -/
def word (b0 b1 b2 b3 : Nat) : Nat :=
  ((b0 % 256) <<< 24) ||| ((b1 % 256) <<< 16) ||| ((b2 % 256) <<< 8) ||| (b3 % 256)

/-- First sixteen words of the schedule, read from a 64-byte chunk. -/
def chunkWords : List Nat → List Nat
  | b0 :: b1 :: b2 :: b3 :: rest => word b0 b1 b2 b3 :: chunkWords rest
  | _ => []

/-- Extend the message schedule by `n` words; `w` holds the words so far,
newest first. -/
def extend : Nat → List Nat → List Nat
  | 0, w => w
  | n + 1, w =>
    let v1 := w.getD 1 0
    let t1 := rotr v1 17 ^^^ rotr v1 19 ^^^ (v1 >>> 10)
    let v2 := w.getD 14 0
    let t2 := rotr v2 7 ^^^ rotr v2 18 ^^^ (v2 >>> 3)
    extend n (add32 (add32 (add32 t1 (w.getD 6 0)) t2) (w.getD 15 0) :: w)

/-- The 64-word message schedule of a chunk, oldest first. -/
def schedule (chunk : List Nat) : List Nat :=
  (extend 48 (chunkWords chunk).reverse).reverse

/-- One round of the compression loop with round constant `k` and
schedule word `w`. -/
def round (s : Digest) (k w : Nat) : Digest :=
  let t1 := add32 (add32 (add32 (add32 s.h7
      (rotr s.h4 6 ^^^ rotr s.h4 11 ^^^ rotr s.h4 25))
      ((s.h4 &&& s.h5) ^^^ (not32 s.h4 &&& s.h6))) k) w
  let t2 := add32 (rotr s.h0 2 ^^^ rotr s.h0 13 ^^^ rotr s.h0 22)
      ((s.h0 &&& s.h1) ^^^ (s.h0 &&& s.h2) ^^^ (s.h1 &&& s.h2))
  ⟨add32 t1 t2, s.h0, s.h1, s.h2, add32 s.h3 t1, s.h4, s.h5, s.h6⟩

/-- All 64 rounds over the paired constants and schedule words. -/
def rounds : Digest → List (Nat × Nat) → Digest
  | s, [] => s
  | s, (k, w) :: rest => rounds (round s k w) rest

/-- Process one 64-byte chunk: `blockGeneric` for a single block. -/
def block (d : Digest) (chunk : List Nat) : Digest :=
  let s := rounds d (K.zip (schedule chunk))
  ⟨add32 d.h0 s.h0, add32 d.h1 s.h1, add32 d.h2 s.h2, add32 d.h3 s.h3,
   add32 d.h4 s.h4, add32 d.h5 s.h5, add32 d.h6 s.h6, add32 d.h7 s.h7⟩

/-- Big-endian bytes of a 32-bit word. -/
def putUint32 (x : Nat) : List Nat :=
  [(x >>> 24) % 256, (x >>> 16) % 256, (x >>> 8) % 256, x % 256]

/-- Big-endian bytes of a 64-bit length. -/
def putUint64 (x : Nat) : List Nat :=
  putUint32 ((x >>> 32) % 2 ^ 32) ++ putUint32 (x % 2 ^ 32)

/-- Message padding: a `0x80` byte, zeros up to 56 modulo 64, then the bit
length. -/
def pad (msg : List Nat) : List Nat :=
  msg ++ 0x80 :: List.replicate ((64 - (msg.length + 9) % 64) % 64) 0
    ++ putUint64 ((msg.length * 8) % 2 ^ 64)

/-- Fold `block` over the successive 64-byte chunks. -/
def blocks (d : Digest) (p : List Nat) : Digest :=
  (List.range (p.length / 64)).foldl (fun s i => block s ((p.drop (64 * i)).take 64)) d

/-- Digest bytes: `hash.Write(bytes)` on a fresh hash followed by
`hash.Sum(nil)`. -/
def Sum (msg : List Nat) : List Nat :=
  let d := blocks init (pad msg)
  putUint32 d.h0 ++ putUint32 d.h1 ++ putUint32 d.h2 ++ putUint32 d.h3
    ++ putUint32 d.h4 ++ putUint32 d.h5 ++ putUint32 d.h6 ++ putUint32 d.h7

end sha256

/-! ## encoding/hex (Go standard library) -/

namespace hex

/-- Lowercase digit table `hextable`. -/
def hextable : List Char := "0123456789abcdef".toList

/-- Two hex digits of one byte. -/
def encodeByte (b : Nat) : List Char :=
  [hextable.getD ((b % 256) / 16) '0', hextable.getD ((b % 256) % 16) '0']

/-- Hexadecimal encoding of a byte slice: `hex.EncodeToString`. -/
def EncodeToString (src : List Nat) : String :=
  ⟨src.flatMap encodeByte⟩

end hex

/-! ## pkg/lib/hash -/

namespace hash

/-- Go `hash.Bytes`: SHA-256, hex, trimmed to 63 characters
(`str[:63]`). -/
def Bytes (bytes : List Nat) : String :=
  let str := hex.EncodeToString (sha256.Sum bytes)
  ⟨str.data.take 63⟩

/-- Conversion `[]byte(str)`: the UTF-8 bytes of the string. -/
def toBytes (str : String) : List Nat :=
  str.data.flatMap fun c => (String.utf8EncodeChar c).map UInt8.toNat

end hash

/-- Go `hash.String`. -/
def hash.String (str : String) : String :=
  hash.Bytes (hash.toBytes str)

/-! ## strings, sort and path/filepath (Go standard library) -/

/-- Go `strings.Join`: the elements concatenated with `sep` between
consecutive ones. -/
def strings.Join (elems : List String) (sep : String) : String :=
  ⟨sep.data.intercalate (elems.map String.data)⟩

/-- Order used by `sort.Strings`: lexicographic comparison of the two
strings, `a` not after `b`. -/
def sort.LE (a b : String) : Prop := a.data ≤ b.data

instance sort.decLE : DecidableRel sort.LE :=
  fun a b => inferInstanceAs (Decidable (a.data ≤ b.data))

/-- Go `sort.Strings`: the strings in increasing order. -/
def sort.Strings (x : List String) : List String :=
  x.insertionSort sort.LE

namespace filepath

/-- The parent-directory path element. -/
def dotdot : List Char := ['.', '.']

/-- One path element met by `Clean`; `out` is the stack of elements written
so far, most recent first.  Empty and `.` elements are dropped; a `..`
element removes the last written element when there is one to backtrack
over, is dropped at the root of a rooted path, and is written otherwise;
any other element is written. -/
def cleanStep (rooted : Bool) (out : List (List Char)) (e : List Char) : List (List Char) :=
  if e = [] then out
  else if e = ['.'] then out
  else if e = dotdot then
    match out with
    | [] => if rooted then [] else [dotdot]
    | top :: rest => if top = dotdot then dotdot :: top :: rest else rest
  else e :: out

/-- Go `filepath.Clean` for the separator `/`: the shortest equivalent
path. -/
def Clean (path : String) : String :=
  if path = "" then "."
  else
    let rooted := path.data.head? = some '/'
    let out := (path.data.splitOn '/').foldl (cleanStep rooted) []
    let body := ['/'].intercalate out.reverse
    let res := if rooted then '/' :: body else body
    if res = [] then "." else ⟨res⟩

/-- Go `filepath.Join`: the elements from the first non-empty one on are
joined with the separator and the result is cleaned; empty when every
element is empty. -/
def Join : List String → String
  | [] => ""
  | e :: rest => if e = "" then Join rest else Clean (strings.Join (e :: rest) "/")

end filepath

/-! ## pkg/consts -/

/-- Directory names of `pkg/consts` used by the storage keys. -/
structure Consts where
  AppsDir : String
  DataDir : String
  RawDataDir : String
  ContextsDir : String
  ResourceStatusesDir : String
  WorkloadSpecsDir : String
  deriving DecidableEq, Repr

/-! ## pkg/operator/context: storage keys -/

/-- Go `ctxKey`. -/
def ctxKey (k : Consts) (ctxID : String) (appName : String) : String :=
  filepath.Join [k.AppsDir, appName, k.ContextsDir, ctxID ++ ".msgpack"]

/-- Go `StatusPrefix`. -/
def StatusPrefix (k : Consts) (appName : String) : String :=
  filepath.Join [k.AppsDir, appName, k.ResourceStatusesDir]

/-- Go `StatusKey`. -/
def StatusKey (k : Consts) (resourceID : String) (workloadID : String) (appName : String) :
    String :=
  filepath.Join [StatusPrefix k appName, resourceID, workloadID]

/-- Go `LatestWorkloadIDKey`. -/
def LatestWorkloadIDKey (k : Consts) (resourceID : String) (appName : String) : String :=
  filepath.Join [StatusPrefix k appName, resourceID, "latest"]

/-- Go `WorkloadSpecKey`. -/
def WorkloadSpecKey (k : Consts) (workloadID : String) (appName : String) : String :=
  filepath.Join [k.AppsDir, appName, k.WorkloadSpecsDir, workloadID]

/-! ## pkg/api/context and pkg/api/userconfig: the data model -/

/-- Types of the values that `New` only passes along: the parts of the user
configuration, the file map, errors, the resource sets and the remaining
fields of the descriptors. -/
structure Sorts where
  AppConfig : Type
  TransformerConfigs : Type
  AggregatorConfigs : Type
  ConstantConfigs : Type
  ConfigRest : Type
  Files : Type
  Error : Type
  CortexConfigRest : Type
  AppRest : Type
  EnvironmentRest : Type
  PythonPackages : Type
  UserTransformers : Type
  UserAggregators : Type
  Constants : Type
  Aggregators : Type
  Transformers : Type
  RawColumns : Type
  Aggregates : Type
  TransformedColumns : Type
  Columns : Type
  Models : Type
  APIs : Type
  Serial : Type

/-- Go `userconfig.Config`: the fields `New` reads, and the rest. -/
structure Config (σ : Sorts) where
  App : σ.AppConfig
  Transformers : σ.TransformerConfigs
  Aggregators : σ.AggregatorConfigs
  Constants : σ.ConstantConfigs
  rest : σ.ConfigRest

/-- Global operator configuration with its id. -/
structure CortexConfig (σ : Sorts) where
  ID : String
  rest : σ.CortexConfigRest

/-- Go `context.App`. -/
structure App (σ : Sorts) where
  ID : String
  Name : String
  rest : σ.AppRest

/-- Go `context.Environment`. -/
structure Environment (σ : Sorts) where
  ID : String
  rest : σ.EnvironmentRest

/-- Go `context.RawDataset`. -/
structure RawDataset where
  Key : String
  MetadataKey : String
  deriving DecidableEq, Repr

/-- A resource as `calculateID` sees it: `ID` is what `GetID()` returns. -/
structure Resource where
  ID : String
  deriving DecidableEq, Repr

/-- Go `context.Context`. -/
structure Context (σ : Sorts) where
  ID : String
  Key : String
  CortexConfig : CortexConfig σ
  DatasetVersion : String
  Root : String
  RawDataset : RawDataset
  StatusPrefix : String
  App : App σ
  Environment : Environment σ
  PythonPackages : σ.PythonPackages
  RawColumns : σ.RawColumns
  Aggregates : σ.Aggregates
  TransformedColumns : σ.TransformedColumns
  Models : σ.Models
  APIs : σ.APIs
  Constants : σ.Constants
  Aggregators : σ.Aggregators
  Transformers : σ.Transformers

/-- Functions of this package and of `pkg/api/context` that `New`,
`calculateID` and `DownloadContext` call and whose bodies are outside the two
files embedded here, together with the directory constants.  A Go result
`(T, error)` is an `Except`, a lone `error` an `Option`.
`autoGenerateConfig` updates the configuration in place: it returns the
updated configuration. -/
structure Deps (σ : Sorts) where
  consts : Consts
  getCortexConfig : CortexConfig σ
  getApp : σ.AppConfig → App σ
  getOrSetDatasetVersion : String → Bool → Except σ.Error String
  getEnvironment : Config σ → String → Environment σ
  loadPythonPackages : σ.Files → String → Except σ.Error σ.PythonPackages
  loadUserTransformers :
    σ.TransformerConfigs → σ.Files → σ.PythonPackages → Except σ.Error σ.UserTransformers
  loadUserAggregators :
    σ.AggregatorConfigs → σ.Files → σ.PythonPackages → Except σ.Error σ.UserAggregators
  autoGenerateConfig :
    Config σ → σ.UserAggregators → σ.UserTransformers → Except σ.Error (Config σ)
  loadConstants : σ.ConstantConfigs → Except σ.Error σ.Constants
  getAggregators : Config σ → σ.UserAggregators → Except σ.Error σ.Aggregators
  getTransformers : Config σ → σ.UserTransformers → Except σ.Error σ.Transformers
  getRawColumns : Config σ → Environment σ → Except σ.Error σ.RawColumns
  getAggregates : Config σ → σ.Constants → σ.RawColumns → σ.UserAggregators → String →
    Except σ.Error σ.Aggregates
  getTransformedColumns : Config σ → σ.Constants → σ.RawColumns → σ.Aggregates →
    σ.UserTransformers → String → Except σ.Error σ.TransformedColumns
  getModels : Config σ → σ.Aggregates → σ.Columns → σ.Files → String → σ.PythonPackages →
    Except σ.Error σ.Models
  getAPIs : Config σ → σ.Models → Except σ.Error σ.APIs
  Validate : Context σ → Option σ.Error
  Columns : σ.RawColumns → σ.TransformedColumns → σ.Columns
  allResources : σ.PythonPackages → σ.RawColumns → σ.Aggregates → σ.TransformedColumns →
    σ.Models → σ.APIs → σ.Constants → σ.Aggregators → σ.Transformers → List Resource
  ReadMsgpackFromS3 : String → Except σ.Error σ.Serial
  ContextFromSerial : σ.Serial → Except σ.Error (Context σ)

/-- Modelled from the spec: `ctx.AllResources()` of `pkg/api/context`, whose
body is not among the embedded files.  It yields every resource of every
resource set of the Context, in an order that is not fixed; it reads the nine
resource sets and nothing else. -/
def AllResources {σ : Sorts} (S : Deps σ) (ctx : Context σ) : List Resource :=
  S.allResources ctx.PythonPackages ctx.RawColumns ctx.Aggregates ctx.TransformedColumns
    ctx.Models ctx.APIs ctx.Constants ctx.Aggregators ctx.Transformers

/-! ## pkg/operator/context: identity -/

/-- The slice `ids` of `calculateID` before it is sorted: the seven scalar
ids, then `GetID()` of every resource. -/
def calculateID.ids {σ : Sorts} (S : Deps σ) (ctx : Context σ) : List String :=
  [ctx.CortexConfig.ID, ctx.DatasetVersion, ctx.Root, ctx.RawDataset.Key, ctx.StatusPrefix,
    ctx.App.ID, ctx.Environment.ID] ++ (AllResources S ctx).map fun resource => resource.ID

/-- Go `calculateID`. -/
def calculateID {σ : Sorts} (S : Deps σ) (ctx : Context σ) : String :=
  hash.String (strings.Join (sort.Strings (calculateID.ids S ctx)) "")

/-- Go `DownloadContext`. -/
def DownloadContext {σ : Sorts} (S : Deps σ) (ctxID : String) (appName : String) :
    Option (Context σ) × Option σ.Error :=
  let s3Key := ctxKey S.consts ctxID appName
  match S.ReadMsgpackFromS3 s3Key with
  | .error err => (none, some err)
  | .ok serial =>
    match S.ContextFromSerial serial with
    | .error err => (none, some err)
    | .ok ctx => (some ctx, none)

/-! ## pkg/operator/context: `New` -/

/-- Go `New`.  The result pair is `(*context.Context, error)`; fields of
`ctx` are given their values when the last step has succeeded, `ID` and `Key`
still being empty when `Validate` runs. -/
def New {σ : Sorts} (S : Deps σ) (config : Config σ) (files : σ.Files) (ignoreCache : Bool) :
    Option (Context σ) × Option σ.Error :=
  let cortexConfig := S.getCortexConfig
  let app := S.getApp config.App
  match S.getOrSetDatasetVersion app.Name ignoreCache with
  | .error err => (none, some err)
  | .ok datasetVersion =>
  let environment := S.getEnvironment config datasetVersion
  let root := filepath.Join
    [S.consts.AppsDir, app.Name, S.consts.DataDir, datasetVersion, environment.ID]
  let rawDataset : RawDataset :=
    { Key := filepath.Join [root, S.consts.RawDataDir, "raw.parquet"]
      MetadataKey := filepath.Join [root, S.consts.RawDataDir, "metadata.json"] }
  let statusPrefix := StatusPrefix S.consts app.Name
  match S.loadPythonPackages files datasetVersion with
  | .error err => (none, some err)
  | .ok pythonPackages =>
  match S.loadUserTransformers config.Transformers files pythonPackages with
  | .error err => (none, some err)
  | .ok userTransformers =>
  match S.loadUserAggregators config.Aggregators files pythonPackages with
  | .error err => (none, some err)
  | .ok userAggregators =>
  match S.autoGenerateConfig config userAggregators userTransformers with
  | .error err => (none, some err)
  | .ok config =>
  match S.loadConstants config.Constants with
  | .error err => (none, some err)
  | .ok constants =>
  match S.getAggregators config userAggregators with
  | .error err => (none, some err)
  | .ok aggregators =>
  match S.getTransformers config userTransformers with
  | .error err => (none, some err)
  | .ok transformers =>
  match S.getRawColumns config environment with
  | .error err => (none, some err)
  | .ok rawColumns =>
  match S.getAggregates config constants rawColumns userAggregators root with
  | .error err => (none, some err)
  | .ok aggregates =>
  match S.getTransformedColumns config constants rawColumns aggregates userTransformers
      root with
  | .error err => (none, some err)
  | .ok transformedColumns =>
  match S.getModels config aggregates (S.Columns rawColumns transformedColumns) files root
      pythonPackages with
  | .error err => (none, some err)
  | .ok models =>
  match S.getAPIs config models with
  | .error err => (none, some err)
  | .ok apis =>
  let ctx : Context σ :=
    { ID := ""
      Key := ""
      CortexConfig := cortexConfig
      DatasetVersion := datasetVersion
      Root := root
      RawDataset := rawDataset
      StatusPrefix := statusPrefix
      App := app
      Environment := environment
      PythonPackages := pythonPackages
      RawColumns := rawColumns
      Aggregates := aggregates
      TransformedColumns := transformedColumns
      Models := models
      APIs := apis
      Constants := constants
      Aggregators := aggregators
      Transformers := transformers }
  match S.Validate ctx with
  | some err => (none, some err)
  | none =>
  let ctx := { ctx with ID := calculateID S ctx }
  let ctx := { ctx with Key := ctxKey S.consts ctx.ID ctx.App.Name }
  (some ctx, none)

/-! ## A small instance

Resource sets are lists of resources, errors are strings, the only model of
an application is the one its configuration lists, and nothing fails. -/

/-- Sorts of the small instance. -/
@[reducible]
def demoSorts : Sorts where
  AppConfig := String
  TransformerConfigs := Unit
  AggregatorConfigs := Unit
  ConstantConfigs := Unit
  ConfigRest := List Resource
  Files := Unit
  Error := String
  CortexConfigRest := Unit
  AppRest := Unit
  EnvironmentRest := Unit
  PythonPackages := List Resource
  UserTransformers := Unit
  UserAggregators := Unit
  Constants := List Resource
  Aggregators := List Resource
  Transformers := List Resource
  RawColumns := List Resource
  Aggregates := List Resource
  TransformedColumns := List Resource
  Columns := List Resource
  Models := List Resource
  APIs := List Resource
  Serial := Unit

/-- Directory names of the small instance. -/
def demoConsts : Consts :=
  { AppsDir := "apps"
    DataDir := "data"
    RawDataDir := "raw_data"
    ContextsDir := "contexts"
    ResourceStatusesDir := "resource_statuses"
    WorkloadSpecsDir := "workload_specs" }

/-- Dependencies of the small instance. -/
def demoDeps : Deps demoSorts where
  consts := demoConsts
  getCortexConfig := { ID := "cc", rest := () }
  getApp := fun name => { ID := "a1", Name := name, rest := () }
  getOrSetDatasetVersion := fun _ _ => .ok "v1"
  getEnvironment := fun _ _ => { ID := "e1", rest := () }
  loadPythonPackages := fun _ _ => .ok []
  loadUserTransformers := fun _ _ _ => .ok ()
  loadUserAggregators := fun _ _ _ => .ok ()
  autoGenerateConfig := fun config _ _ => .ok config
  loadConstants := fun _ => .ok []
  getAggregators := fun _ _ => .ok []
  getTransformers := fun _ _ => .ok []
  getRawColumns := fun _ _ => .ok []
  getAggregates := fun _ _ _ _ _ => .ok []
  getTransformedColumns := fun _ _ _ _ _ _ => .ok []
  getModels := fun config _ _ _ _ _ => .ok config.rest
  getAPIs := fun _ _ => .ok []
  Validate := fun _ => none
  Columns := fun rawColumns transformedColumns => rawColumns ++ transformedColumns
  allResources := fun pythonPackages rawColumns aggregates transformedColumns models apis
      constants aggregators transformers =>
    pythonPackages ++ rawColumns ++ aggregates ++ transformedColumns ++ models ++ apis
      ++ constants ++ aggregators ++ transformers
  ReadMsgpackFromS3 := fun _ => .error "no such key"
  ContextFromSerial := fun _ => .error "unreadable"

/-- Configuration of the small instance: application `fraud` with the given
models. -/
def demoConfig (models : List Resource) : Config demoSorts :=
  { App := "fraud", Transformers := (), Aggregators := (), Constants := (), rest := models }

/-- A Context of the small instance with the given global configuration id
and models, every other id being empty. -/
def demoContext (cortexConfigID : String) (models : List Resource) : Context demoSorts :=
  { ID := ""
    Key := ""
    CortexConfig := { ID := cortexConfigID, rest := () }
    DatasetVersion := ""
    Root := ""
    RawDataset := { Key := "", MetadataKey := "" }
    StatusPrefix := ""
    App := { ID := "", Name := "", rest := () }
    Environment := { ID := "", rest := () }
    PythonPackages := []
    RawColumns := []
    Aggregates := []
    TransformedColumns := []
    Models := models
    APIs := []
    Constants := []
    Aggregators := []
    Transformers := [] }

/-- The small instance with failing steps: loading the user transformers
fails, and so would the models step and the validation. -/
def demoDepsFailing : Deps demoSorts :=
  { demoDeps with
    loadUserTransformers := fun _ _ _ => .error "transformer file missing"
    getModels := fun _ _ _ _ _ _ => .error "model rejected"
    Validate := fun _ => some "invalid context" }

/-- Another dataset version resolver: it knows the application `fraud`
only. -/
def demoResolver (appName : String) (_ignoreCache : Bool) : Except String String :=
  if appName = "fraud" then .ok "v1" else .error "unknown application"

/-- Another enumeration of the resources: that of the small instance,
backwards. -/
def demoEnumerate (pythonPackages rawColumns aggregates transformedColumns models apis
    constants aggregators transformers : List Resource) : List Resource :=
  (demoDeps.allResources pythonPackages rawColumns aggregates transformedColumns models apis
    constants aggregators transformers).reverse

/-! ## Path predicates -/

namespace filepath

/-- A clean single path segment: non-empty, without separator, and neither
`.` nor `..`. -/
def isSegment (s : String) : Prop :=
  s ≠ "" ∧ '/' ∉ s.data ∧ s ≠ "." ∧ s ≠ ".."

instance isSegment.dec (s : String) : Decidable (isSegment s) := by
  unfold isSegment
  infer_instance

/-- No path element of `s` (the pieces between separators) is `..`. -/
def noDotDot (s : String) : Prop :=
  dotdot ∉ s.data.splitOn '/'

instance noDotDot.dec (s : String) : Decidable (noDotDot s) := by
  unfold noDotDot
  infer_instance

/-- The path elements of `p` other than the empty ones and `.`. -/
def kept (p : List Char) : List (List Char) :=
  (p.splitOn '/').filter fun e => decide (e ≠ [] ∧ e ≠ ['.'])

end filepath

/-- Every directory constant is a clean single path segment. -/
def Consts.clean (k : Consts) : Prop :=
  filepath.isSegment k.AppsDir ∧ filepath.isSegment k.DataDir ∧
  filepath.isSegment k.RawDataDir ∧ filepath.isSegment k.ContextsDir ∧
  filepath.isSegment k.ResourceStatusesDir ∧ filepath.isSegment k.WorkloadSpecsDir

instance Consts.clean.dec (k : Consts) : Decidable k.clean := by
  unfold Consts.clean
  infer_instance

/-- A proper path element: non-empty, neither `.` nor `..`, without
separator. -/
def filepath.isElement (e : List Char) : Prop :=
  e ≠ [] ∧ e ≠ ['.'] ∧ e ≠ filepath.dotdot ∧ '/' ∉ e

/-- The string `a` is a proper prefix of `b`: `b` starts with `a` and is
longer. -/
def strings.properPrefixOf (a b : String) : Prop :=
  a.data <+: b.data ∧ a ≠ b

instance strings.properPrefixOf.dec (a b : String) : Decidable (strings.properPrefixOf a b) := by
  unfold strings.properPrefixOf
  infer_instance

/-- The small instance with the global configuration id `aaabaa`. -/
def collidingDeps : Deps demoSorts :=
  { demoDeps with getCortexConfig := { ID := "aaabaa", rest := () } }

/-! ## Content hasher -/

/-- The padded message of SHA-256 is a whole number of 64-byte chunks. -/
theorem sha256.pad_length_mod (msg : List Nat) : (sha256.pad msg).length % 64 = 0 := by
  simp [sha256.pad, sha256.putUint64, sha256.putUint32]
  omega

/-- The model of SHA-256 agrees with the standard test vector for the empty
message. -/
theorem sha256.Sum_nil :
    hex.EncodeToString (sha256.Sum []) =
      "e3b0c44298fc1c149afbf4c8996fb92427ae41e4649b934ca495991b7852b855" := by
  rfl

/-- The model of SHA-256 agrees with the standard test vector for
`abc`. -/
theorem sha256.Sum_abc :
    hex.EncodeToString (sha256.Sum (hash.toBytes "abc")) =
      "ba7816bf8f01cfea414140de5dae2223b00361a396177a9cb410ff61f20015ad" := by
  rfl

/-- The model of SHA-256 agrees with the standard two-chunk test vector. -/
theorem sha256.Sum_two_chunks :
    hex.EncodeToString (sha256.Sum
      (hash.toBytes "abcdbcdecdefdefgefghfghighijhijkijkljklmklmnlmnomnopnopq")) =
      "248d6a61d20638b8e5c026930c3e6039a33ce45964ff2167f6ecedd419db06c1" := by
  rfl

/-- A SHA-256 digest has 32 bytes. -/
theorem sha256.Sum_length (msg : List Nat) : (sha256.Sum msg).length = 32 := by
  simp [sha256.Sum, sha256.putUint32]

/-- Every entry the encoder looks up is one of the sixteen lowercase
digits. -/
theorem hex.getD_mem_hextable (i : Nat) : hex.hextable.getD i '0' ∈ hex.hextable := by
  by_cases h : i < 16
  · interval_cases i <;> decide
  · rw [List.getD_eq_default]
    · decide
    · simpa [hex.hextable] using h

/-- Each byte is written as two characters. -/
theorem hex.EncodeToString_length (src : List Nat) :
    (hex.EncodeToString src).length = 2 * src.length := by
  induction src with
  | nil => rfl
  | cons b bs ih =>
    simp only [hex.EncodeToString, String.length, List.flatMap_cons, List.length_append,
      List.length_cons] at ih ⊢
    simp [hex.encodeByte, ih]
    omega

/-- Every character of an encoding is a lowercase hexadecimal digit. -/
theorem hex.EncodeToString_mem (src : List Nat) :
    ∀ c ∈ (hex.EncodeToString src).data, c ∈ hex.hextable := by
  intro c hc
  simp only [hex.EncodeToString, List.mem_flatMap] at hc
  obtain ⟨b, _, hb⟩ := hc
  simp only [hex.encodeByte, List.mem_cons, List.mem_singleton, List.not_mem_nil,
    or_false] at hb
  rcases hb with rfl | rfl <;> exact hex.getD_mem_hextable _

/-- C3. Truncation bound: for every byte sequence `b` (the empty one included)
the SHA-256 digest has 32 bytes, its lowercase hexadecimal encoding has 64
characters, `hash.Bytes b` is the first 63 of them, so it has exactly 63
characters, each a hexadecimal digit; `hash.String s` is `hash.Bytes` of the
bytes of `s` and has the same two properties. -/
theorem hash_truncation_bound (b : List Nat) (s : String) :
    (hex.EncodeToString (sha256.Sum b)).length = 64 ∧
    (hash.Bytes b).data = (hex.EncodeToString (sha256.Sum b)).data.take 63 ∧
    (hash.Bytes b).length = 63 ∧
    (∀ c ∈ (hash.Bytes b).data, c ∈ "0123456789abcdef".data) ∧
    hash.String s = hash.Bytes (hash.toBytes s) ∧
    (hash.String s).length = 63 ∧
    (∀ c ∈ (hash.String s).data, c ∈ "0123456789abcdef".data) := by
  have hlen : ∀ m : List Nat, (hex.EncodeToString (sha256.Sum m)).length = 64 := by
    intro m
    rw [hex.EncodeToString_length, sha256.Sum_length]
  have h63 : ∀ m : List Nat, (hash.Bytes m).length = 63 := by
    intro m
    have := hlen m
    simp only [String.length] at this
    simp [hash.Bytes, String.length, this]
  have hmem : ∀ m : List Nat, ∀ c ∈ (hash.Bytes m).data, c ∈ "0123456789abcdef".data := by
    intro m c hc
    exact hex.EncodeToString_mem (sha256.Sum m) c (List.mem_of_mem_take hc)
  exact ⟨hlen b, rfl, h63 b, hmem b, rfl, h63 _, hmem _⟩

/-- C3 at the empty byte sequence and the empty string. -/
theorem hash_truncation_bound_witness :
    (hash.Bytes []).length = 63 ∧ (hash.String "").length = 63 ∧
      hash.Bytes [] = "e3b0c44298fc1c149afbf4c8996fb92427ae41e4649b934ca495991b7852b85" :=
  ⟨(hash_truncation_bound [] "").2.2.1, (hash_truncation_bound [] "").2.2.2.2.2.1, by rfl⟩

/-! ## Sorting and joining -/

/-- The order of `sort.Strings` is total. -/
theorem sort.LE_total (a b : String) : sort.LE a b ∨ sort.LE b a :=
  le_total a.data b.data

/-- The order of `sort.Strings` is transitive. -/
theorem sort.LE_trans (a b c : String) (h₁ : sort.LE a b) (h₂ : sort.LE b c) : sort.LE a c :=
  le_trans (α := List Char) h₁ h₂

/-- The order of `sort.Strings` is antisymmetric. -/
theorem sort.LE_antisymm (a b : String) (h₁ : sort.LE a b) (h₂ : sort.LE b a) : a = b :=
  String.ext (le_antisymm h₁ h₂)

instance sort.isTotal : IsTotal String sort.LE := ⟨sort.LE_total⟩

instance sort.isTrans : IsTrans String sort.LE := ⟨sort.LE_trans⟩

instance sort.isAntisymm : IsAntisymm String sort.LE := ⟨sort.LE_antisymm⟩

/-- The result of `sort.Strings` is sorted. -/
theorem sort.Strings_sorted (x : List String) : (sort.Strings x).Sorted sort.LE :=
  List.sorted_insertionSort sort.LE x

/-- The result of `sort.Strings` is a rearrangement of its argument. -/
theorem sort.Strings_perm (x : List String) : (sort.Strings x).Perm x :=
  List.perm_insertionSort sort.LE x

/-- Rearranging the argument of `sort.Strings` does not change its
result. -/
theorem sort.Strings_congr {x y : List String} (h : x.Perm y) :
    sort.Strings x = sort.Strings y :=
  List.eq_of_perm_of_sorted
    (((sort.Strings_perm x).trans h).trans (sort.Strings_perm y).symm)
    (sort.Strings_sorted x) (sort.Strings_sorted y)

/-- C1. `calculateID` is order-independent: two Contexts whose id lists (the
seven scalar ids followed by the id of every resource `AllResources` yields)
are permutations of each other have the same identity, whatever order the
resources are yielded in. -/
theorem calculateID_order_independent {σ : Sorts} (S S' : Deps σ) (ctx ctx' : Context σ)
    (h : (calculateID.ids S ctx).Perm (calculateID.ids S' ctx')) :
    calculateID S ctx = calculateID S' ctx' := by
  unfold calculateID
  have hsorted : sort.Strings (calculateID.ids S ctx) = sort.Strings (calculateID.ids S' ctx') :=
    sort.Strings_congr h
  rw [hsorted]

/-- C1 at two Contexts that hold the same two models in opposite orders. -/
theorem calculateID_order_independent_witness :
    (calculateID.ids demoDeps (demoContext "cc" [⟨"m1"⟩, ⟨"m2"⟩])).Perm
        (calculateID.ids demoDeps (demoContext "cc" [⟨"m2"⟩, ⟨"m1"⟩])) ∧
      calculateID.ids demoDeps (demoContext "cc" [⟨"m1"⟩, ⟨"m2"⟩]) ≠
        calculateID.ids demoDeps (demoContext "cc" [⟨"m2"⟩, ⟨"m1"⟩]) ∧
      calculateID demoDeps (demoContext "cc" [⟨"m1"⟩, ⟨"m2"⟩]) =
        calculateID demoDeps (demoContext "cc" [⟨"m2"⟩, ⟨"m1"⟩]) :=
  ⟨by decide, by decide,
    calculateID_order_independent demoDeps demoDeps _ _ (by decide)⟩

/-! ## `New` -/

/-- What a Context returned by `New` is made of: it is a validated Context
`ctx₀` with empty `ID` and `Key`, laid out from the application, the resolved
dataset version and the environment, to which the identity and the key were
then attached; and no error accompanies it. -/
theorem New_some_inv {σ : Sorts} (S : Deps σ) (config : Config σ) (files : σ.Files)
    (ignoreCache : Bool) (ctx : Context σ)
    (h : (New S config files ignoreCache).1 = some ctx) :
    ∃ ctx₀ : Context σ,
      ctx₀.ID = "" ∧ ctx₀.Key = "" ∧ S.Validate ctx₀ = none ∧
      ctx = { ctx₀ with
        ID := calculateID S ctx₀
        Key := ctxKey S.consts (calculateID S ctx₀) ctx₀.App.Name } ∧
      ctx₀.App = S.getApp config.App ∧
      S.getOrSetDatasetVersion ctx₀.App.Name ignoreCache = .ok ctx₀.DatasetVersion ∧
      ctx₀.Environment = S.getEnvironment config ctx₀.DatasetVersion ∧
      ctx₀.Root = filepath.Join [S.consts.AppsDir, ctx₀.App.Name, S.consts.DataDir,
        ctx₀.DatasetVersion, ctx₀.Environment.ID] ∧
      ctx₀.RawDataset =
        { Key := filepath.Join [ctx₀.Root, S.consts.RawDataDir, "raw.parquet"]
          MetadataKey := filepath.Join [ctx₀.Root, S.consts.RawDataDir, "metadata.json"] } ∧
      ctx₀.StatusPrefix = StatusPrefix S.consts ctx₀.App.Name ∧
      (New S config files ignoreCache).2 = none := by
  unfold New at h ⊢
  rcases h1 : S.getOrSetDatasetVersion (S.getApp config.App).Name ignoreCache with e | v
  · simp [h1] at h
  simp only [h1] at h ⊢
  rcases h2 : S.loadPythonPackages files v with e | pythonPackages
  · simp [h2] at h
  simp only [h2] at h ⊢
  rcases h3 : S.loadUserTransformers config.Transformers files pythonPackages with
    e | userTransformers
  · simp [h3] at h
  simp only [h3] at h ⊢
  rcases h4 : S.loadUserAggregators config.Aggregators files pythonPackages with
    e | userAggregators
  · simp [h4] at h
  simp only [h4] at h ⊢
  rcases h5 : S.autoGenerateConfig config userAggregators userTransformers with e | config'
  · simp [h5] at h
  simp only [h5] at h ⊢
  rcases h6 : S.loadConstants config'.Constants with e | constants
  · simp [h6] at h
  simp only [h6] at h ⊢
  rcases h7 : S.getAggregators config' userAggregators with e | aggregators
  · simp [h7] at h
  simp only [h7] at h ⊢
  rcases h8 : S.getTransformers config' userTransformers with e | transformers
  · simp [h8] at h
  simp only [h8] at h ⊢
  rcases h9 : S.getRawColumns config' (S.getEnvironment config v) with e | rawColumns
  · simp [h9] at h
  simp only [h9] at h ⊢
  generalize hroot : filepath.Join [S.consts.AppsDir, (S.getApp config.App).Name,
    S.consts.DataDir, v, (S.getEnvironment config v).ID] = root at h ⊢
  rcases h10 : S.getAggregates config' constants rawColumns userAggregators root with
    e | aggregates
  · simp [h10] at h
  simp only [h10] at h ⊢
  rcases h11 : S.getTransformedColumns config' constants rawColumns aggregates
    userTransformers root with e | transformedColumns
  · simp [h11] at h
  simp only [h11] at h ⊢
  rcases h12 : S.getModels config' aggregates (S.Columns rawColumns transformedColumns) files
    root pythonPackages with e | models
  · simp [h12] at h
  simp only [h12] at h ⊢
  rcases h13 : S.getAPIs config' models with e | apis
  · simp [h13] at h
  simp only [h13] at h ⊢
  split at h
  · simp at h
  · rename_i h14
    simp only [Option.some.injEq] at h
    simp only [h14]
    exact ⟨_, rfl, rfl, h14, h.symm, rfl, h1, rfl, hroot.symm, rfl, rfl, trivial⟩

/-- C5. Fail-fast: `New` runs dataset-version resolution, python packages,
user transformers, user aggregators, config auto-completion, constants,
aggregators, transformers, raw columns, aggregates, transformed columns,
models, APIs and validation in this order; when the steps before one of them
succeed and that step returns the error `e`, `New` returns no Context
together with `e`.  The steps after the failing one are arbitrary here: the
result does not depend on them. -/
theorem New_fail_fast {σ : Sorts} (S : Deps σ) (config : Config σ) (files : σ.Files)
    (ignoreCache : Bool) (e : σ.Error) :
    (S.getOrSetDatasetVersion (S.getApp config.App).Name ignoreCache = .error e →
      New S config files ignoreCache = (none, some e)) ∧
    (∀ datasetVersion,
      S.getOrSetDatasetVersion (S.getApp config.App).Name ignoreCache = .ok datasetVersion →
      (S.loadPythonPackages files datasetVersion = .error e →
        New S config files ignoreCache = (none, some e)) ∧
    (∀ pythonPackages,
      S.loadPythonPackages files datasetVersion = .ok pythonPackages →
      (S.loadUserTransformers config.Transformers files pythonPackages = .error e →
        New S config files ignoreCache = (none, some e)) ∧
    (∀ userTransformers,
      S.loadUserTransformers config.Transformers files pythonPackages = .ok userTransformers →
      (S.loadUserAggregators config.Aggregators files pythonPackages = .error e →
        New S config files ignoreCache = (none, some e)) ∧
    (∀ userAggregators,
      S.loadUserAggregators config.Aggregators files pythonPackages = .ok userAggregators →
      (S.autoGenerateConfig config userAggregators userTransformers = .error e →
        New S config files ignoreCache = (none, some e)) ∧
    (∀ config',
      S.autoGenerateConfig config userAggregators userTransformers = .ok config' →
      (S.loadConstants config'.Constants = .error e →
        New S config files ignoreCache = (none, some e)) ∧
    (∀ constants,
      S.loadConstants config'.Constants = .ok constants →
      (S.getAggregators config' userAggregators = .error e →
        New S config files ignoreCache = (none, some e)) ∧
    (∀ aggregators,
      S.getAggregators config' userAggregators = .ok aggregators →
      (S.getTransformers config' userTransformers = .error e →
        New S config files ignoreCache = (none, some e)) ∧
    (∀ transformers,
      S.getTransformers config' userTransformers = .ok transformers →
      (S.getRawColumns config' (S.getEnvironment config datasetVersion) = .error e →
        New S config files ignoreCache = (none, some e)) ∧
    (∀ rawColumns root,
      S.getRawColumns config' (S.getEnvironment config datasetVersion) = .ok rawColumns →
      root = filepath.Join [S.consts.AppsDir, (S.getApp config.App).Name, S.consts.DataDir,
        datasetVersion, (S.getEnvironment config datasetVersion).ID] →
      (S.getAggregates config' constants rawColumns userAggregators root = .error e →
        New S config files ignoreCache = (none, some e)) ∧
    (∀ aggregates,
      S.getAggregates config' constants rawColumns userAggregators root = .ok aggregates →
      (S.getTransformedColumns config' constants rawColumns aggregates userTransformers root
          = .error e →
        New S config files ignoreCache = (none, some e)) ∧
    (∀ transformedColumns,
      S.getTransformedColumns config' constants rawColumns aggregates userTransformers root
        = .ok transformedColumns →
      (S.getModels config' aggregates (S.Columns rawColumns transformedColumns) files root
          pythonPackages = .error e →
        New S config files ignoreCache = (none, some e)) ∧
    (∀ models,
      S.getModels config' aggregates (S.Columns rawColumns transformedColumns) files root
        pythonPackages = .ok models →
      (S.getAPIs config' models = .error e →
        New S config files ignoreCache = (none, some e)) ∧
    (∀ apis,
      S.getAPIs config' models = .ok apis →
      (S.Validate
          { ID := ""
            Key := ""
            CortexConfig := S.getCortexConfig
            DatasetVersion := datasetVersion
            Root := root
            RawDataset :=
              { Key := filepath.Join [root, S.consts.RawDataDir, "raw.parquet"]
                MetadataKey := filepath.Join [root, S.consts.RawDataDir, "metadata.json"] }
            StatusPrefix := StatusPrefix S.consts (S.getApp config.App).Name
            App := S.getApp config.App
            Environment := S.getEnvironment config datasetVersion
            PythonPackages := pythonPackages
            RawColumns := rawColumns
            Aggregates := aggregates
            TransformedColumns := transformedColumns
            Models := models
            APIs := apis
            Constants := constants
            Aggregators := aggregators
            Transformers := transformers } = some e →
        New S config files ignoreCache = (none, some e))))))))))))))) := by
  unfold New
  refine ⟨fun h => by simp only [h], fun datasetVersion h1 => ?_⟩
  simp only [h1]
  refine ⟨fun h => by simp only [h], fun pythonPackages h2 => ?_⟩
  simp only [h2]
  refine ⟨fun h => by simp only [h], fun userTransformers h3 => ?_⟩
  simp only [h3]
  refine ⟨fun h => by simp only [h], fun userAggregators h4 => ?_⟩
  simp only [h4]
  refine ⟨fun h => by simp only [h], fun config' h5 => ?_⟩
  simp only [h5]
  refine ⟨fun h => by simp only [h], fun constants h6 => ?_⟩
  simp only [h6]
  refine ⟨fun h => by simp only [h], fun aggregators h7 => ?_⟩
  simp only [h7]
  refine ⟨fun h => by simp only [h], fun transformers h8 => ?_⟩
  simp only [h8]
  refine ⟨fun h => by simp only [h], fun rawColumns root h9 hroot => ?_⟩
  subst hroot
  simp only [h9]
  refine ⟨fun h => by simp only [h], fun aggregates h10 => ?_⟩
  simp only [h10]
  refine ⟨fun h => by simp only [h], fun transformedColumns h11 => ?_⟩
  simp only [h11]
  refine ⟨fun h => by simp only [h], fun models h12 => ?_⟩
  simp only [h12]
  refine ⟨fun h => by simp only [h], fun apis h13 => ?_⟩
  simp only [h13]
  intro h14
  simp only [h14]

/-- C6. Identity and key are attached on success: when `New` returns a
Context `ctx`, it returns no error, the validator accepted `ctx` as it stood
when validated (`ID` and `Key` not yet set), `ctx.ID` is `calculateID ctx` and
`ctx.Key` is `ctxKey ctx.ID ctx.App.Name`; `DownloadContext ctx.ID ctx.App.Name`
reads the store at `ctx.Key` and nowhere else: its result is the decoding of
the blob read at that key, for every store. -/
theorem New_attaches_identity_and_key {σ : Sorts} (S : Deps σ) (config : Config σ)
    (files : σ.Files) (ignoreCache : Bool) (ctx : Context σ)
    (h : (New S config files ignoreCache).1 = some ctx) :
    (New S config files ignoreCache).2 = none ∧
    S.Validate { ctx with ID := "", Key := "" } = none ∧
    ctx.ID = calculateID S ctx ∧
    ctx.Key = ctxKey S.consts ctx.ID ctx.App.Name ∧
    ∀ read : String → Except σ.Error σ.Serial,
      DownloadContext { S with ReadMsgpackFromS3 := read } ctx.ID ctx.App.Name =
        match read ctx.Key with
        | .error err => (none, some err)
        | .ok serial =>
          match S.ContextFromSerial serial with
          | .error err => (none, some err)
          | .ok ctx' => (some ctx', none) := by
  obtain ⟨ctx₀, hid, hkey, hval, hctx, -, -, -, -, -, -, herr⟩ :=
    New_some_inv S config files ignoreCache ctx h
  subst hctx
  refine ⟨herr, ?_, rfl, rfl, fun read => rfl⟩
  rw [← hval]
  congr 1
  cases ctx₀
  simp only at hid hkey
  subst hid hkey
  rfl

/-- C9. Root and raw-dataset layout: when `New` returns a Context `ctx`, its
root is `AppsDir/App.Name/DataDir/DatasetVersion/Environment.ID`, the raw
dataset keys are `raw.parquet` and `metadata.json` under `Root/RawDataDir`,
the status prefix is `StatusPrefix App.Name`, and the dataset version is the
one the resolver returned for the application name with `ignoreCache` as its
invalidation flag. -/
theorem New_root_layout {σ : Sorts} (S : Deps σ) (config : Config σ)
    (files : σ.Files) (ignoreCache : Bool) (ctx : Context σ)
    (h : (New S config files ignoreCache).1 = some ctx) :
    ctx.Root = filepath.Join [S.consts.AppsDir, ctx.App.Name, S.consts.DataDir,
      ctx.DatasetVersion, ctx.Environment.ID] ∧
    ctx.RawDataset.Key = filepath.Join [ctx.Root, S.consts.RawDataDir, "raw.parquet"] ∧
    ctx.RawDataset.MetadataKey =
      filepath.Join [ctx.Root, S.consts.RawDataDir, "metadata.json"] ∧
    ctx.StatusPrefix = StatusPrefix S.consts ctx.App.Name ∧
    S.getOrSetDatasetVersion ctx.App.Name ignoreCache = .ok ctx.DatasetVersion ∧
    ctx.App = S.getApp config.App ∧
    ctx.Environment = S.getEnvironment config ctx.DatasetVersion := by
  obtain ⟨ctx₀, -, -, -, hctx, happ, hver, henv, hroot, hraw, hstatus, -⟩ :=
    New_some_inv S config files ignoreCache ctx h
  subst hctx
  refine ⟨hroot, ?_, ?_, hstatus, hver, happ, henv⟩
  · show ctx₀.RawDataset.Key = _
    rw [hraw]
  · show ctx₀.RawDataset.MetadataKey = _
    rw [hraw]

/-- Two runs of `New` that differ in the dataset version resolver and in the
order in which resources are enumerated, but in which the resolver answers
alike for this application and flag, return the same pair. -/
theorem New_congr {σ : Sorts} (S : Deps σ) (config : Config σ) (files : σ.Files)
    (ignoreCache : Bool) (resolver : String → Bool → Except σ.Error String)
    (enumerate : σ.PythonPackages → σ.RawColumns → σ.Aggregates → σ.TransformedColumns →
      σ.Models → σ.APIs → σ.Constants → σ.Aggregators → σ.Transformers → List Resource)
    (hresolver : resolver (S.getApp config.App).Name ignoreCache =
      S.getOrSetDatasetVersion (S.getApp config.App).Name ignoreCache)
    (henumerate : ∀ p r a t m i c g f,
      (enumerate p r a t m i c g f).Perm (S.allResources p r a t m i c g f)) :
    New { S with getOrSetDatasetVersion := resolver, allResources := enumerate }
        config files ignoreCache =
      New S config files ignoreCache := by
  unfold New
  simp only [hresolver]
  have hid : ∀ ctx : Context σ,
      calculateID { S with getOrSetDatasetVersion := resolver, allResources := enumerate } ctx
        = calculateID S ctx := by
    intro ctx
    unfold calculateID
    rw [sort.Strings_congr]
    exact List.Perm.append_left _ ((henumerate _ _ _ _ _ _ _ _ _).map _)
  simp only [hid]

/-- C2. Determinism of `New`: take two runs on the same config, files and
flag, with the same deterministic stage functions, in which the dataset
version resolver gives the same answer, resources being enumerated in
possibly different orders.  Both succeed or both fail, and when they succeed
the two Contexts have the same `ID` and the same `Key`. -/
theorem New_deterministic {σ : Sorts} (S : Deps σ) (config : Config σ) (files : σ.Files)
    (ignoreCache : Bool) (resolver : String → Bool → Except σ.Error String)
    (enumerate : σ.PythonPackages → σ.RawColumns → σ.Aggregates → σ.TransformedColumns →
      σ.Models → σ.APIs → σ.Constants → σ.Aggregators → σ.Transformers → List Resource)
    (hresolver : resolver (S.getApp config.App).Name ignoreCache =
      S.getOrSetDatasetVersion (S.getApp config.App).Name ignoreCache)
    (henumerate : ∀ p r a t m i c g f,
      (enumerate p r a t m i c g f).Perm (S.allResources p r a t m i c g f)) :
    ((New S config files ignoreCache).2 = none ↔
      (New { S with getOrSetDatasetVersion := resolver, allResources := enumerate }
        config files ignoreCache).2 = none) ∧
    ((New S config files ignoreCache).1.isSome ↔
      (New { S with getOrSetDatasetVersion := resolver, allResources := enumerate }
        config files ignoreCache).1.isSome) ∧
    ∀ ctx ctx',
      (New S config files ignoreCache).1 = some ctx →
      (New { S with getOrSetDatasetVersion := resolver, allResources := enumerate }
        config files ignoreCache).1 = some ctx' →
      ctx.ID = ctx'.ID ∧ ctx.Key = ctx'.Key := by
  rw [New_congr S config files ignoreCache resolver enumerate hresolver henumerate]
  refine ⟨Iff.rfl, Iff.rfl, fun ctx ctx' h h' => ?_⟩
  rw [h] at h'
  cases h'
  exact ⟨rfl, rfl⟩

/-- C10. The latest-workload pointer of a resource is stored at the key of
the status of a workload named `latest` of that resource. -/
theorem LatestWorkloadIDKey_eq_StatusKey (k : Consts) (resourceID : String)
    (appName : String) :
    LatestWorkloadIDKey k resourceID appName = StatusKey k resourceID "latest" appName :=
  rfl

/-- C5 in the small instance with failing steps: the user transformers step
fails, and its error is returned although the models step and the validation
would fail with other errors. -/
theorem New_fail_fast_witness :
    demoDepsFailing.getModels (demoConfig []) [] [] () "" [] = .error "model rejected" ∧
      demoDepsFailing.Validate (demoContext "" []) = some "invalid context" ∧
      New demoDepsFailing (demoConfig []) () false = (none, some "transformer file missing") :=
  ⟨rfl, rfl,
    (((New_fail_fast demoDepsFailing (demoConfig []) () false
      "transformer file missing").2 "v1" rfl).2 [] rfl).1 rfl⟩

/-- C6 in the small instance, for the application `fraud` with one
model. -/
theorem New_attaches_identity_and_key_witness :
    ∃ ctx, (New demoDeps (demoConfig [⟨"m1"⟩]) () false).1 = some ctx ∧
      ctx.ID = "313bf1e46e9874b5985a93b68c5cc6adce8259819e27c563662d3ca8d06d022" ∧
      ctx.ID = calculateID demoDeps ctx ∧
      ctx.Key = ctxKey demoConsts ctx.ID "fraud" ∧
      ctx.Key =
        "apps/fraud/contexts/313bf1e46e9874b5985a93b68c5cc6adce8259819e27c563662d3ca8d06d022.msgpack" :=
  ⟨_, rfl, by rfl,
    (New_attaches_identity_and_key demoDeps (demoConfig [⟨"m1"⟩]) () false _ rfl).2.2.1,
    (New_attaches_identity_and_key demoDeps (demoConfig [⟨"m1"⟩]) () false _ rfl).2.2.2.1,
    by rfl⟩

/-- C9 in the small instance, for the application `fraud`. -/
theorem New_root_layout_witness :
    ∃ ctx, (New demoDeps (demoConfig [⟨"m1"⟩]) () false).1 = some ctx ∧
      ctx.Root = filepath.Join ["apps", "fraud", "data", "v1", "e1"] ∧
      ctx.Root = "apps/fraud/data/v1/e1" ∧
      ctx.RawDataset.Key = "apps/fraud/data/v1/e1/raw_data/raw.parquet" ∧
      ctx.RawDataset.MetadataKey = "apps/fraud/data/v1/e1/raw_data/metadata.json" ∧
      ctx.StatusPrefix = "apps/fraud/resource_statuses" ∧ ctx.DatasetVersion = "v1" :=
  ⟨_, rfl, (New_root_layout demoDeps (demoConfig [⟨"m1"⟩]) () false _ rfl).1,
    by decide, by decide, by decide, by decide, rfl⟩

/-- C2 in the small instance: a run with the other resolver and the
resources enumerated backwards gives the same `ID` and `Key`. -/
theorem New_deterministic_witness :
    demoResolver ≠ demoDeps.getOrSetDatasetVersion ∧
    demoEnumerate [] [] [] [] [⟨"m1"⟩, ⟨"m2"⟩] [] [] [] [] ≠
      demoDeps.allResources [] [] [] [] [⟨"m1"⟩, ⟨"m2"⟩] [] [] [] [] ∧
    ∃ ctx ctx',
      (New demoDeps (demoConfig [⟨"m1"⟩, ⟨"m2"⟩]) () false).1 = some ctx ∧
      (New { demoDeps with getOrSetDatasetVersion := demoResolver
                           allResources := demoEnumerate }
        (demoConfig [⟨"m1"⟩, ⟨"m2"⟩]) () false).1 = some ctx' ∧
      ctx.ID = ctx'.ID ∧ ctx.Key = ctx'.Key :=
  ⟨fun h => by simpa [demoResolver, demoDeps] using congrFun (congrFun h "x") false,
    by decide,
    _, _, rfl, rfl,
    (New_deterministic demoDeps (demoConfig [⟨"m1"⟩, ⟨"m2"⟩]) () false demoResolver
      demoEnumerate rfl (fun _ _ _ _ _ _ _ _ _ => List.reverse_perm _)).2.2 _ _ rfl rfl⟩

/-! ## Paths -/

namespace filepath

theorem intercalate_cons_cons {α : Type} (sep x y : List α) (L : List (List α)) :
    sep.intercalate (x :: y :: L) = x ++ sep ++ sep.intercalate (y :: L) := by
  simp [List.intercalate]

theorem intercalate_singleton {α : Type} (sep x : List α) :
    sep.intercalate [x] = x := by
  simp [List.intercalate]

/-- Joining two non-empty lists of elements: the first part, a separator,
the second part. -/
theorem intercalate_append {α : Type} (sep : List α) (P Q : List (List α)) (hP : P ≠ [])
    (hQ : Q ≠ []) :
    sep.intercalate (P ++ Q) = sep.intercalate P ++ sep ++ sep.intercalate Q := by
  induction P with
  | nil => exact absurd rfl hP
  | cons x P ih =>
    cases P with
    | nil =>
      cases Q with
      | nil => exact absurd rfl hQ
      | cons y Q => simp [intercalate_cons_cons, intercalate_singleton]
    | cons y P =>
      have := ih (by simp)
      simp only [List.cons_append] at this ⊢
      rw [intercalate_cons_cons, this, intercalate_cons_cons]
      simp [List.append_assoc]

theorem intercalate_ne_nil {α : Type} (sep : List α) (L : List (List α)) (hL : L ≠ [])
    (h : ∀ e ∈ L, e ≠ []) : sep.intercalate L ≠ [] := by
  cases L with
  | nil => exact absurd rfl hL
  | cons x L =>
    have hx : x ≠ [] := h x (List.mem_cons_self _ _)
    cases L with
    | nil => simpa [intercalate_singleton] using hx
    | cons y L => simp [intercalate_cons_cons, hx]

theorem head?_intercalate {α : Type} (sep x : List α) (L : List (List α)) (hx : x ≠ []) :
    (sep.intercalate (x :: L)).head? = x.head? := by
  cases L with
  | nil => simp [intercalate_singleton]
  | cons y L =>
    rw [intercalate_cons_cons, List.append_assoc]
    cases x with
    | nil => exact absurd rfl hx
    | cons c x => rfl

theorem splitOn_ne_nil (p : List Char) : p.splitOn '/' ≠ [] :=
  List.splitOnP_ne_nil _ _

theorem splitOn_cons (c : Char) (p : List Char) :
    (c :: p).splitOn '/' =
      if c = '/' then [] :: p.splitOn '/' else (p.splitOn '/').modifyHead (List.cons c) := by
  simp only [List.splitOn, List.splitOnP_cons, beq_iff_eq]

/-- Splitting a path made of two parts around a separator. -/
theorem splitOn_append_sep (a b : List Char) :
    (a ++ '/' :: b).splitOn '/' = a.splitOn '/' ++ b.splitOn '/' := by
  induction a with
  | nil => simp [splitOn_cons, List.splitOn]
  | cons c a ih =>
    rw [List.cons_append, splitOn_cons, splitOn_cons, ih]
    split
    · rfl
    · cases h : a.splitOn '/' with
      | nil => exact absurd h (splitOn_ne_nil a)
      | cons x xs => rfl

/-- Splitting a joined list of paths splits each of them. -/
theorem splitOn_intercalate_flatMap (L : List (List Char)) (hL : L ≠ []) :
    (['/'].intercalate L).splitOn '/' = L.flatMap fun x => x.splitOn '/' := by
  induction L with
  | nil => exact absurd rfl hL
  | cons x L ih =>
    cases L with
    | nil => simp [intercalate_singleton]
    | cons y L =>
      rw [intercalate_cons_cons, List.append_assoc, List.singleton_append,
        splitOn_append_sep, ih (by simp)]
      simp

/-- No path element contains a separator. -/
theorem not_mem_of_mem_splitOn (p e : List Char) (he : e ∈ p.splitOn '/') : '/' ∉ e := by
  induction p generalizing e with
  | nil =>
    simp [List.splitOn] at he
    subst he
    simp
  | cons c p ih =>
    rw [splitOn_cons] at he
    split at he
    · rcases List.mem_cons.1 he with rfl | h
      · simp
      · exact ih e h
    · rename_i hc
      cases h : p.splitOn '/' with
      | nil => exact absurd h (splitOn_ne_nil p)
      | cons x xs =>
        rw [h] at he ih
        rcases List.mem_cons.1 he with rfl | h'
        · have := ih x (List.mem_cons_self _ _)
          simp only [List.mem_cons, not_or]
          exact ⟨fun hh => hc hh.symm, this⟩
        · exact ih e (List.mem_cons_of_mem _ h')

/-- A path without separator is its own single element. -/
theorem splitOn_eq_single (p : List Char) (h : '/' ∉ p) : p.splitOn '/' = [p] :=
  List.splitOnP_eq_single _ _ fun x hx hp => h (by simpa using (beq_iff_eq.1 hp) ▸ hx)

/-- Appending a separator-free suffix to a path appends it to the last path
element. -/
theorem splitOn_append (a b : List Char) (hb : '/' ∉ b) :
    ∃ init last, a.splitOn '/' = init ++ [last] ∧
      (a ++ b).splitOn '/' = init ++ [last ++ b] := by
  induction a with
  | nil => exact ⟨[], [], by simp [List.splitOn], by simpa using splitOn_eq_single b hb⟩
  | cons c a ih =>
    obtain ⟨init, last, h1, h2⟩ := ih
    rw [List.cons_append, splitOn_cons, splitOn_cons, h1, h2]
    split
    · exact ⟨[] :: init, last, rfl, rfl⟩
    · cases init with
      | nil => exact ⟨[], c :: last, rfl, rfl⟩
      | cons i is => exact ⟨(c :: i) :: is, last, rfl, rfl⟩

end filepath

namespace filepath

/-- Without `..` elements `Clean` keeps, in order, the elements that are
neither empty nor `.`. -/
theorem foldl_cleanStep (rooted : Bool) (es out : List (List Char)) (h : dotdot ∉ es) :
    es.foldl (cleanStep rooted) out =
      (es.filter fun e => decide (e ≠ [] ∧ e ≠ ['.'])).reverse ++ out := by
  induction es generalizing out with
  | nil => rfl
  | cons e es ih =>
    have he : e ≠ dotdot := fun hh => h (hh ▸ List.mem_cons_self _ _)
    have hes : dotdot ∉ es := fun hh => h (List.mem_cons_of_mem _ hh)
    rw [List.foldl_cons, ih _ hes]
    by_cases h1 : e = []
    · simp [cleanStep, h1]
    · by_cases h2 : e = ['.']
      · simp [cleanStep, h2]
      · simp [cleanStep, h1, h2, he, List.filter_cons]

/-- Every kept element is non-empty. -/
theorem ne_nil_of_mem_kept (p e : List Char) (he : e ∈ kept p) : e ≠ [] := by
  simp only [kept, List.mem_filter, decide_eq_true_eq] at he
  exact he.2.1

/-- The kept elements of a joined list of paths. -/
theorem kept_intercalate (L : List (List Char)) (hL : L ≠ []) :
    kept (['/'].intercalate L) = L.flatMap kept := by
  unfold kept
  rw [splitOn_intercalate_flatMap L hL]
  induction L with
  | nil => rfl
  | cons x L _ => simp [List.filter_append, List.filter_flatMap]

/-- `Clean` on a relative path without `..` element that keeps at least
one element: the kept elements joined by separators. -/
theorem Clean_data (p : List Char) (hrel : p.head? ≠ some '/')
    (hdd : dotdot ∉ p.splitOn '/') (hkept : kept p ≠ []) :
    (Clean ⟨p⟩).data = ['/'].intercalate (kept p) := by
  have hp : (⟨p⟩ : String) ≠ "" := by
    intro hh
    have : p = [] := congrArg String.data hh
    subst this
    exact hkept (by decide)
  have hne : ['/'].intercalate (kept p) ≠ [] :=
    intercalate_ne_nil _ _ hkept (ne_nil_of_mem_kept p)
  unfold Clean
  simp only [hp, if_false, hrel, decide_False, Bool.false_eq_true]
  rw [foldl_cleanStep _ _ _ hdd]
  simp only [List.append_nil, List.reverse_reverse]
  change (if ['/'].intercalate (kept p) = [] then "." else ⟨['/'].intercalate (kept p)⟩
    : String).data = _
  rw [if_neg hne]

/-- `Join` on elements without `..`, the first one non-empty and relative:
the kept elements of all of them joined by separators. -/
theorem Join_data (e : String) (rest : List String) (he : e.data ≠ [])
    (hrel : e.data.head? ≠ some '/') (hdd : ∀ x ∈ e :: rest, noDotDot x)
    (hkept : (e :: rest).flatMap (fun x => kept x.data) ≠ []) :
    (Join (e :: rest)).data =
      ['/'].intercalate ((e :: rest).flatMap fun x => kept x.data) := by
  have he' : e ≠ "" := fun hh => he (congrArg String.data hh)
  have hL : (e :: rest).map String.data ≠ [] := by simp
  have hk : kept (['/'].intercalate ((e :: rest).map String.data)) =
      (e :: rest).flatMap fun x => kept x.data := by
    rw [kept_intercalate _ hL, List.flatMap_map]
  rw [Join, if_neg he']
  unfold strings.Join
  change (Clean ⟨['/'].intercalate ((e :: rest).map String.data)⟩).data = _
  rw [Clean_data, hk]
  · rw [List.map_cons, head?_intercalate _ _ _ he]
    exact hrel
  · rw [splitOn_intercalate_flatMap _ hL]
    simp only [List.mem_flatMap, List.mem_map, not_exists, not_and]
    rintro x ⟨y, hy, rfl⟩
    exact hdd y hy
  · rw [hk]
    exact hkept

end filepath

namespace filepath

/-- A clean segment is a proper path element. -/
theorem isElement_of_isSegment (s : String) (h : isSegment s) : isElement s.data := by
  obtain ⟨h1, h2, h3, h4⟩ := h
  exact ⟨fun hh => h1 (String.ext hh), fun hh => h3 (String.ext hh),
    fun hh => h4 (String.ext hh), h2⟩

/-- The kept elements of a path without `..` are proper path elements. -/
theorem isElement_of_mem_kept (p e : List Char) (hdd : dotdot ∉ p.splitOn '/')
    (he : e ∈ kept p) : isElement e := by
  simp only [kept, List.mem_filter, decide_eq_true_eq] at he
  exact ⟨he.2.1, he.2.2, fun hh => hdd (hh ▸ he.1), not_mem_of_mem_splitOn p e he.1⟩

/-- A proper path element is the only element it keeps. -/
theorem kept_of_isElement (e : List Char) (h : isElement e) : kept e = [e] := by
  simp [kept, splitOn_eq_single e h.2.2.2, h.1, h.2.1]

/-- A proper path element has no `..` element. -/
theorem noDotDot_of_isElement (e : List Char) (h : isElement e) :
    dotdot ∉ e.splitOn '/' := by
  rw [splitOn_eq_single e h.2.2.2]
  simpa using fun hh => h.2.2.1 hh.symm

/-- Proper path elements joined by separators: a non-empty relative path
without `..` element, which keeps exactly these elements. -/
theorem intercalate_isElement (K : List (List Char)) (hK : K ≠ [])
    (h : ∀ e ∈ K, isElement e) :
    ['/'].intercalate K ≠ [] ∧ (['/'].intercalate K).head? ≠ some '/' ∧
      dotdot ∉ (['/'].intercalate K).splitOn '/' ∧ kept (['/'].intercalate K) = K := by
  refine ⟨intercalate_ne_nil _ _ hK fun e he => (h e he).1, ?_, ?_, ?_⟩
  · cases K with
    | nil => exact absurd rfl hK
    | cons x K =>
      have hx := h x (List.mem_cons_self _ _)
      rw [head?_intercalate _ _ _ hx.1]
      cases x with
      | nil => simp
      | cons c x =>
        have : '/' ≠ c := fun hh => hx.2.2.2 (hh ▸ List.mem_cons_self _ _)
        simpa using fun hh => this hh.symm
  · rw [splitOn_intercalate_flatMap K hK]
    simp only [List.mem_flatMap, not_exists, not_and]
    exact fun e he => noDotDot_of_isElement e (h e he)
  · rw [kept_intercalate K hK]
    induction K with
    | nil => rfl
    | cons x K ih =>
      rw [List.flatMap_cons, kept_of_isElement x (h x (List.mem_cons_self _ _))]
      cases K with
      | nil => rfl
      | cons y K =>
        rw [ih (by simp) fun e he => h e (List.mem_cons_of_mem _ he)]
        rfl

/-- `Join` of elements without `..`, the first of which is a non-empty
relative path: the proper path elements of all of them, joined by
separators. -/
theorem Join_isElement (e : String) (rest : List String) (he : e.data ≠ [])
    (hrel : e.data.head? ≠ some '/') (hdd : ∀ x ∈ e :: rest, noDotDot x)
    (hkept : (e :: rest).flatMap (fun x => kept x.data) ≠ []) :
    (Join (e :: rest)).data = ['/'].intercalate ((e :: rest).flatMap fun x => kept x.data) ∧
      ∀ a ∈ (e :: rest).flatMap (fun x => kept x.data), isElement a := by
  refine ⟨Join_data e rest he hrel hdd hkept, fun a ha => ?_⟩
  obtain ⟨x, hx, hax⟩ := List.mem_flatMap.1 ha
  exact isElement_of_mem_kept x.data a (hdd x hx) hax

/-- A clean segment starts a relative path and is the only element it
keeps. -/
theorem isSegment_facts (s : String) (h : isSegment s) :
    s.data ≠ [] ∧ s.data.head? ≠ some '/' ∧ noDotDot s ∧ kept s.data = [s.data] := by
  have he := isElement_of_isSegment s h
  have := intercalate_isElement [s.data] (by simp) (by simpa using he)
  simpa [intercalate_singleton, noDotDot] using this

/-- Appending the extension `.msgpack` to a name without `..` element leaves
it without `..` element. -/
theorem noDotDot_append_msgpack (s : String) (h : noDotDot s) :
    noDotDot (s ++ ".msgpack") := by
  unfold noDotDot at h ⊢
  obtain ⟨init, last, h1, h2⟩ := splitOn_append s.data ".msgpack".data (by decide)
  rw [String.data_append, h2]
  rw [h1] at h
  simp only [List.mem_append, List.mem_singleton, not_or] at h ⊢
  refine ⟨h.1, fun hh => ?_⟩
  have := congrArg List.length hh
  simp [dotdot] at this

end filepath

/-! ## Storage keys -/

/-- The per-application prefix `Join(AppsDir, appName)`: the apps directory
followed by the proper path elements of the application name. -/
theorem appPrefix_data (k : Consts) (hk : k.clean) (appName : String)
    (happ : filepath.noDotDot appName) :
    (filepath.Join [k.AppsDir, appName]).data =
      ['/'].intercalate (k.AppsDir.data :: filepath.kept appName.data) := by
  obtain ⟨ha1, ha2, ha3, ha4⟩ := filepath.isSegment_facts _ hk.1
  have := (filepath.Join_isElement k.AppsDir [appName] ha1 ha2
    (by simp [ha3, happ]) (by simp [ha4])).1
  simpa [ha4] using this

/-- Elements of `ctxKey`. -/
theorem ctxKey_data (k : Consts) (hk : k.clean) (ctxID appName : String)
    (happ : filepath.noDotDot appName) (hctx : filepath.noDotDot ctxID) :
    (ctxKey k ctxID appName).data =
      ['/'].intercalate ((k.AppsDir.data :: filepath.kept appName.data) ++
        (k.ContextsDir.data :: filepath.kept (ctxID ++ ".msgpack").data)) := by
  obtain ⟨ha1, ha2, ha3, ha4⟩ := filepath.isSegment_facts _ hk.1
  obtain ⟨-, -, hc3, hc4⟩ := filepath.isSegment_facts _ hk.2.2.2.1
  have := (filepath.Join_isElement k.AppsDir [appName, k.ContextsDir, ctxID ++ ".msgpack"]
    ha1 ha2 (by simp [ha3, happ, hc3, filepath.noDotDot_append_msgpack ctxID hctx])
    (by simp [ha4])).1
  simpa [ctxKey, ha4, hc4] using this

/-- Elements of `StatusPrefix`, which are proper path elements. -/
theorem StatusPrefix_data (k : Consts) (hk : k.clean) (appName : String)
    (happ : filepath.noDotDot appName) :
    (StatusPrefix k appName).data =
      ['/'].intercalate ((k.AppsDir.data :: filepath.kept appName.data) ++
        [k.ResourceStatusesDir.data]) ∧
    ∀ e ∈ (k.AppsDir.data :: filepath.kept appName.data) ++ [k.ResourceStatusesDir.data],
      filepath.isElement e := by
  obtain ⟨ha1, ha2, ha3, ha4⟩ := filepath.isSegment_facts _ hk.1
  obtain ⟨-, -, hs3, hs4⟩ := filepath.isSegment_facts _ hk.2.2.2.2.1
  have := filepath.Join_isElement k.AppsDir [appName, k.ResourceStatusesDir]
    ha1 ha2 (by simp [ha3, happ, hs3]) (by simp [ha4])
  simpa [StatusPrefix, ha4, hs4] using this

/-- Elements of a key under the status prefix. -/
theorem statusJoin_data (k : Consts) (hk : k.clean) (appName resourceID last : String)
    (happ : filepath.noDotDot appName) (hres : filepath.noDotDot resourceID)
    (hlast : filepath.noDotDot last) :
    (filepath.Join [StatusPrefix k appName, resourceID, last]).data =
      ['/'].intercalate ((k.AppsDir.data :: filepath.kept appName.data) ++
        (k.ResourceStatusesDir.data ::
          (filepath.kept resourceID.data ++ filepath.kept last.data))) := by
  obtain ⟨hsp, hel⟩ := StatusPrefix_data k hk appName happ
  obtain ⟨h1, h2, h3, h4⟩ := filepath.intercalate_isElement _ (by simp) hel
  rw [← hsp] at h1 h2 h3 h4
  have := (filepath.Join_isElement (StatusPrefix k appName) [resourceID, last] h1 h2
    (by
      intro x hx
      simp only [List.mem_cons, List.mem_singleton, List.not_mem_nil, or_false] at hx
      rcases hx with rfl | rfl | rfl
      · exact h3
      · exact hres
      · exact hlast) (by simp [h4])).1
  simpa [h4] using this

/-- Elements of `WorkloadSpecKey`. -/
theorem WorkloadSpecKey_data (k : Consts) (hk : k.clean) (workloadID appName : String)
    (happ : filepath.noDotDot appName) (hw : filepath.noDotDot workloadID) :
    (WorkloadSpecKey k workloadID appName).data =
      ['/'].intercalate ((k.AppsDir.data :: filepath.kept appName.data) ++
        (k.WorkloadSpecsDir.data :: filepath.kept workloadID.data)) := by
  obtain ⟨ha1, ha2, ha3, ha4⟩ := filepath.isSegment_facts _ hk.1
  obtain ⟨-, -, hc3, hc4⟩ := filepath.isSegment_facts _ hk.2.2.2.2.2
  have := (filepath.Join_isElement k.AppsDir [appName, k.WorkloadSpecsDir, workloadID]
    ha1 ha2 (by simp [ha3, happ, hc3, hw]) (by simp [ha4])).1
  simpa [WorkloadSpecKey, ha4, hc4] using this

/-- A key whose elements are those of the per-application prefix followed by
at least one more starts with the prefix and a separator. -/
theorem prefix_of_data (k : Consts) (hk : k.clean) (appName key : String)
    (happ : filepath.noDotDot appName) (Q : List (List Char)) (hQ : Q ≠ [])
    (hkey : key.data =
      ['/'].intercalate ((k.AppsDir.data :: filepath.kept appName.data) ++ Q)) :
    (filepath.Join [k.AppsDir, appName] ++ "/").data <+: key.data := by
  rw [hkey, filepath.intercalate_append _ _ _ (by simp) hQ, String.data_append,
    appPrefix_data k hk appName happ]
  exact List.prefix_append _ _

/-- A clean segment followed by the extension `.msgpack` is a proper path
element. -/
theorem filepath.isElement_append_msgpack (s : String) (h : '/' ∉ s.data) :
    filepath.isElement (s ++ ".msgpack").data := by
  rw [String.data_append]
  refine ⟨by simp, fun hh => ?_, fun hh => ?_, ?_⟩
  · have := congrArg List.length hh
    simp at this
  · have := congrArg List.length hh
    simp [filepath.dotdot] at this
  · rw [List.mem_append, not_or]
    exact ⟨h, by decide⟩

/-- C7. Key namespace layout: when the directory constants and `appName`,
`ctxID`, `resourceID`, `workloadID` are clean single path segments, the keys
are `AppsDir/appName/ContextsDir/ctxID.msgpack`,
`AppsDir/appName/ResourceStatusesDir/resourceID/workloadID`,
`AppsDir/appName/ResourceStatusesDir/resourceID/latest` and
`AppsDir/appName/WorkloadSpecsDir/workloadID`, with single separators. -/
theorem key_namespace_layout (k : Consts) (appName ctxID resourceID workloadID : String)
    (hk : k.clean) (happ : filepath.isSegment appName) (hctx : filepath.isSegment ctxID)
    (hres : filepath.isSegment resourceID) (hw : filepath.isSegment workloadID) :
    ctxKey k ctxID appName =
      k.AppsDir ++ "/" ++ appName ++ "/" ++ k.ContextsDir ++ "/" ++ ctxID ++ ".msgpack" ∧
    StatusKey k resourceID workloadID appName =
      k.AppsDir ++ "/" ++ appName ++ "/" ++ k.ResourceStatusesDir ++ "/" ++ resourceID
        ++ "/" ++ workloadID ∧
    LatestWorkloadIDKey k resourceID appName =
      k.AppsDir ++ "/" ++ appName ++ "/" ++ k.ResourceStatusesDir ++ "/" ++ resourceID
        ++ "/" ++ "latest" ∧
    WorkloadSpecKey k workloadID appName =
      k.AppsDir ++ "/" ++ appName ++ "/" ++ k.WorkloadSpecsDir ++ "/" ++ workloadID := by
  obtain ⟨-, -, ha3, ha4⟩ := filepath.isSegment_facts _ happ
  obtain ⟨-, -, hc3, -⟩ := filepath.isSegment_facts _ hctx
  obtain ⟨-, -, hr3, hr4⟩ := filepath.isSegment_facts _ hres
  obtain ⟨-, -, hw3, hw4⟩ := filepath.isSegment_facts _ hw
  have hm := filepath.kept_of_isElement _ (filepath.isElement_append_msgpack ctxID hctx.2.1)
  have hl : filepath.kept "latest".data = ["latest".data] := by decide
  refine ⟨String.ext ?_, String.ext ?_, String.ext ?_, String.ext ?_⟩
  · rw [ctxKey_data k hk ctxID appName ha3 hc3, ha4, hm]
    simp [filepath.intercalate_cons_cons, filepath.intercalate_singleton, String.data_append]
  · rw [StatusKey, statusJoin_data k hk appName resourceID workloadID ha3 hr3 hw3, ha4, hr4,
      hw4]
    simp [filepath.intercalate_cons_cons, filepath.intercalate_singleton, String.data_append]
  · rw [LatestWorkloadIDKey, statusJoin_data k hk appName resourceID "latest" ha3 hr3
      (by decide), ha4, hr4, hl]
    simp [filepath.intercalate_cons_cons, filepath.intercalate_singleton, String.data_append]
  · rw [WorkloadSpecKey_data k hk workloadID appName ha3 hw3, ha4, hw4]
    simp [filepath.intercalate_cons_cons, filepath.intercalate_singleton, String.data_append]

/-- C7 at the application `fraud`. -/
theorem key_namespace_layout_witness :
    demoConsts.clean ∧ filepath.isSegment "fraud" ∧ filepath.isSegment "c0ffee" ∧
      filepath.isSegment "r1" ∧ filepath.isSegment "w1" ∧
      ctxKey demoConsts "c0ffee" "fraud" = "apps/fraud/contexts/c0ffee.msgpack" ∧
      StatusKey demoConsts "r1" "w1" "fraud" = "apps/fraud/resource_statuses/r1/w1" ∧
      LatestWorkloadIDKey demoConsts "r1" "fraud" = "apps/fraud/resource_statuses/r1/latest" ∧
      WorkloadSpecKey demoConsts "w1" "fraud" = "apps/fraud/workload_specs/w1" :=
  ⟨by decide, by decide, by decide, by decide, by decide,
    key_namespace_layout demoConsts "fraud" "c0ffee" "r1" "w1" (by decide) (by decide)
      (by decide) (by decide) (by decide)⟩

/-- C8, as stated, fails: with the resource id `../..` the status key of
application `app` is `apps/other`, outside `apps/app/`; with the application
name `..` the context key is `contexts/x.msgpack`, outside the apps
directory. -/
theorem keys_rooted_counterexample :
    StatusKey demoConsts "../.." "other" "app" = "apps/other" ∧
      filepath.Join [demoConsts.AppsDir, "app"] ++ "/" = "apps/app/" ∧
      ¬ ((filepath.Join [demoConsts.AppsDir, "app"] ++ "/").data <+:
        (StatusKey demoConsts "../.." "other" "app").data) ∧
      ctxKey demoConsts "x" ".." = "contexts/x.msgpack" ∧
      filepath.Join [demoConsts.AppsDir, ".."] ++ "/" = "./" ∧
      ¬ ((filepath.Join [demoConsts.AppsDir, ".."] ++ "/").data <+:
        (ctxKey demoConsts "x" "..").data) := by
  decide

/-- C8, amended. When the directory constants are clean segments and none
of `appName`, `ctxID`, `resourceID`, `workloadID` has a `..` path element,
each of `ctxKey`, `StatusPrefix`, `StatusKey`, `LatestWorkloadIDKey` and
`WorkloadSpecKey` returns a path that starts with `Join(AppsDir, appName)`
followed by a separator. -/
theorem keys_rooted_under_app_dir (k : Consts)
    (appName ctxID resourceID workloadID : String) (hk : k.clean)
    (happ : filepath.noDotDot appName) (hctx : filepath.noDotDot ctxID)
    (hres : filepath.noDotDot resourceID) (hw : filepath.noDotDot workloadID) :
    (filepath.Join [k.AppsDir, appName] ++ "/").data <+: (ctxKey k ctxID appName).data ∧
    (filepath.Join [k.AppsDir, appName] ++ "/").data <+: (StatusPrefix k appName).data ∧
    (filepath.Join [k.AppsDir, appName] ++ "/").data <+:
      (StatusKey k resourceID workloadID appName).data ∧
    (filepath.Join [k.AppsDir, appName] ++ "/").data <+:
      (LatestWorkloadIDKey k resourceID appName).data ∧
    (filepath.Join [k.AppsDir, appName] ++ "/").data <+:
      (WorkloadSpecKey k workloadID appName).data :=
  ⟨prefix_of_data k hk appName _ happ _ (by simp) (ctxKey_data k hk ctxID appName happ hctx),
    prefix_of_data k hk appName _ happ _ (by simp) (StatusPrefix_data k hk appName happ).1,
    prefix_of_data k hk appName _ happ _ (by simp)
      (statusJoin_data k hk appName resourceID workloadID happ hres hw),
    prefix_of_data k hk appName _ happ _ (by simp)
      (statusJoin_data k hk appName resourceID "latest" happ hres (by decide)),
    prefix_of_data k hk appName _ happ _ (by simp)
      (WorkloadSpecKey_data k hk workloadID appName happ hw)⟩

/-- C8, amended, at an application name and a resource id with several path
elements. -/
theorem keys_rooted_under_app_dir_witness :
    demoConsts.clean ∧ filepath.noDotDot "team//fraud" ∧ filepath.noDotDot "c0ffee" ∧
      filepath.noDotDot "a/./b" ∧ filepath.noDotDot "/w1" ∧
      filepath.Join [demoConsts.AppsDir, "team//fraud"] ++ "/" = "apps/team/fraud/" ∧
      StatusKey demoConsts "a/./b" "/w1" "team//fraud" =
        "apps/team/fraud/resource_statuses/a/b/w1" ∧
      (filepath.Join [demoConsts.AppsDir, "team//fraud"] ++ "/").data <+:
        (StatusKey demoConsts "a/./b" "/w1" "team//fraud").data :=
  ⟨by decide, by decide, by decide, by decide, by decide, by decide, by decide,
    (keys_rooted_under_app_dir demoConsts "team//fraud" "c0ffee" "a/./b" "/w1" (by decide)
      (by decide) (by decide) (by decide) (by decide)).2.2.1⟩

/-! ## Identity of a Context with a single model -/

/-- Joining without separator is concatenation. -/
theorem strings.Join_empty_data (elems : List String) :
    (strings.Join elems "").data = (elems.map String.data).flatten := by
  unfold strings.Join
  change [].intercalate (elems.map String.data) = _
  induction elems with
  | nil => rfl
  | cons x xs ih =>
    cases xs with
    | nil => simp [filepath.intercalate_singleton]
    | cons y ys =>
      simp only [List.map_cons, List.flatten_cons] at ih ⊢
      rw [filepath.intercalate_cons_cons, ih]
      simp

/-- Sorting a list with one more string at its end inserts that string in
the sorted list. -/
theorem sort.Strings_append_singleton (x : List String) (a : String) :
    sort.Strings (x ++ [a]) = (sort.Strings x).orderedInsert sort.LE a := by
  rw [sort.Strings_congr (List.perm_append_singleton a x)]
  rfl

/-- A list of characters is not after any list it is a prefix of. -/
theorem sort.not_lt_of_prefix (a t : List Char) : ¬ (a ++ t < a) := by
  induction a with
  | nil => exact fun h => by cases h
  | cons c a ih =>
    intro h
    exact ih (List.Lex.cons_iff.1 h)

/-- A prefix sorts first. -/
theorem sort.LE_of_prefix (a b : String) (h : a.data <+: b.data) : sort.LE a b := by
  obtain ⟨t, ht⟩ := h
  unfold sort.LE
  rw [← ht]
  exact not_lt.1 (sort.not_lt_of_prefix a.data t)

/-- A string not after `s` that is no proper prefix of `s`, and that starts a
text `s` starts too, is `s`. -/
theorem sort.eq_of_common_start (a s : String) (x y : List Char) (hle : sort.LE a s)
    (hpre : ¬ strings.properPrefixOf a s) (h : a.data ++ x = s.data ++ y) : a = s := by
  have h1 : a.data <+: a.data ++ x := List.prefix_append _ _
  have h2 : s.data <+: a.data ++ x := h ▸ List.prefix_append _ _
  rcases List.prefix_or_prefix_of_prefix h1 h2 with hp | hp
  · by_contra hne
    exact hpre ⟨hp, hne⟩
  · exact sort.LE_antisymm a s hle (sort.LE_of_prefix s a hp)

/-- A string not after any string of a list goes to its front. -/
theorem sort.orderedInsert_front (s : String) (L : List String) (h : ∀ t ∈ L, sort.LE s t) :
    L.orderedInsert sort.LE s = s :: L := by
  cases L with
  | nil => rfl
  | cons t L => exact List.orderedInsert_of_le _ _ (h t (List.mem_cons_self _ _))

/-- Inserting one of two strings in a sorted list and concatenating: when
neither string is a proper prefix of a string of the list, equal
concatenations come from equal strings. -/
theorem sort.join_orderedInsert_injective (L : List String) (hL : L.Sorted sort.LE)
    (a b : String) (ha : ∀ s ∈ L, ¬ strings.properPrefixOf a s)
    (hb : ∀ s ∈ L, ¬ strings.properPrefixOf b s)
    (h : ((L.orderedInsert sort.LE a).map String.data).flatten =
      ((L.orderedInsert sort.LE b).map String.data).flatten) : a = b := by
  induction L generalizing a b with
  | nil =>
    simp only [List.orderedInsert, List.map_cons, List.map_nil, List.flatten_cons,
      List.flatten_nil, List.append_nil] at h
    exact String.ext h
  | cons s L ih =>
    have hs : ∀ t ∈ L, sort.LE s t := List.rel_of_sorted_cons hL
    have hL' : L.Sorted sort.LE := hL.of_cons
    have ha' : ∀ t ∈ L, ¬ strings.properPrefixOf a t := fun t ht =>
      ha t (List.mem_cons_of_mem _ ht)
    have hb' : ∀ t ∈ L, ¬ strings.properPrefixOf b t := fun t ht =>
      hb t (List.mem_cons_of_mem _ ht)
    by_cases hale : sort.LE a s
    · by_cases hble : sort.LE b s
      · rw [List.orderedInsert_of_le _ _ hale, List.orderedInsert_of_le _ _ hble] at h
        simp only [List.map_cons, List.flatten_cons, List.append_cancel_right_eq] at h
        exact String.ext h
      · rw [List.orderedInsert_of_le _ _ hale] at h
        simp only [List.orderedInsert, hble, if_false, List.map_cons, List.flatten_cons] at h
        have has : a = s :=
          sort.eq_of_common_start a s _ _ hale (ha s (List.mem_cons_self _ _)) h
        subst has
        rw [List.append_cancel_left_eq] at h
        apply ih hL' a b ha' hb'
        rw [sort.orderedInsert_front a L hs]
        simpa using h
    · by_cases hble : sort.LE b s
      · rw [List.orderedInsert_of_le _ _ hble] at h
        simp only [List.orderedInsert, hale, if_false, List.map_cons, List.flatten_cons] at h
        have hbs : b = s :=
          sort.eq_of_common_start b s _ _ hble (hb s (List.mem_cons_self _ _)) h.symm
        subst hbs
        rw [List.append_cancel_left_eq] at h
        apply ih hL' a b ha' hb'
        rw [sort.orderedInsert_front b L hs]
        simpa using h
      · simp only [List.orderedInsert, hale, hble, if_false, List.map_cons, List.flatten_cons,
          List.append_cancel_left_eq] at h
        exact ih hL' a b ha' hb' h

/-- C4, as stated, fails.  Two runs of `New` on the application `fraud`,
one with the single model id `aaab` and one with `abaa`, with the global
configuration id `aaabaa`, return Contexts that agree on the seven scalar ids
and have one resource each; the sorted ids are joined to the same string
(`aaab` then `aaabaa` in one, `aaabaa` then `abaa` in the other), so the two
Contexts have the same identity although the model ids differ. -/
theorem calculateID_model_id_counterexample :
    ∃ ctx ctx',
      (New collidingDeps (demoConfig [⟨"aaab"⟩]) () false).1 = some ctx ∧
      (New collidingDeps (demoConfig [⟨"abaa"⟩]) () false).1 = some ctx' ∧
      AllResources collidingDeps ctx = [⟨"aaab"⟩] ∧
      AllResources collidingDeps ctx' = [⟨"abaa"⟩] ∧
      ctx.CortexConfig.ID = ctx'.CortexConfig.ID ∧
      ctx.DatasetVersion = ctx'.DatasetVersion ∧
      ctx.Root = ctx'.Root ∧
      ctx.RawDataset.Key = ctx'.RawDataset.Key ∧
      ctx.StatusPrefix = ctx'.StatusPrefix ∧
      ctx.App.ID = ctx'.App.ID ∧
      ctx.Environment.ID = ctx'.Environment.ID ∧
      sort.Strings (calculateID.ids collidingDeps ctx) =
        ["a1", "aaab", "aaabaa", "apps/fraud/data/v1/e1",
          "apps/fraud/data/v1/e1/raw_data/raw.parquet", "apps/fraud/resource_statuses",
          "e1", "v1"] ∧
      sort.Strings (calculateID.ids collidingDeps ctx') =
        ["a1", "aaabaa", "abaa", "apps/fraud/data/v1/e1",
          "apps/fraud/data/v1/e1/raw_data/raw.parquet", "apps/fraud/resource_statuses",
          "e1", "v1"] ∧
      strings.Join (sort.Strings (calculateID.ids collidingDeps ctx)) "" =
        strings.Join (sort.Strings (calculateID.ids collidingDeps ctx')) "" ∧
      ctx.ID = ctx'.ID ∧
      ¬ (calculateID collidingDeps ctx ≠ calculateID collidingDeps ctx' ↔
        (⟨"aaab"⟩ : Resource).ID ≠ (⟨"abaa"⟩ : Resource).ID) := by
  refine ⟨_, _, rfl, rfl, rfl, rfl, rfl, rfl, rfl, rfl, rfl, rfl, rfl, ?_, ?_, ?_, ?_, ?_⟩
  · decide
  · decide
  · decide
  · show hash.String _ = hash.String _
    exact congrArg hash.String (by decide)
  · intro h
    refine h.2 (by decide) ?_
    show hash.String _ = hash.String _
    exact congrArg hash.String (by decide)

/-- C4, amended. Take two Contexts with exactly one resource each, `m` and
`m'`, that agree on the seven scalar ids, and suppose that neither `m.ID` nor
`m'.ID` is a proper prefix of a scalar id and that `hash.String` does not
collide on the two hashed strings.  Then the hashed concatenations differ if
and only if the ids of the two models differ, and so do the identities. -/
theorem calculateID_differs_iff_model_id {σ : Sorts} (S : Deps σ) (ctx ctx' : Context σ)
    (m m' : Resource)
    (hres : AllResources S ctx = [m]) (hres' : AllResources S ctx' = [m'])
    (hcortex : ctx.CortexConfig.ID = ctx'.CortexConfig.ID)
    (hversion : ctx.DatasetVersion = ctx'.DatasetVersion)
    (hroot : ctx.Root = ctx'.Root)
    (hraw : ctx.RawDataset.Key = ctx'.RawDataset.Key)
    (hstatus : ctx.StatusPrefix = ctx'.StatusPrefix)
    (happ : ctx.App.ID = ctx'.App.ID)
    (henv : ctx.Environment.ID = ctx'.Environment.ID)
    (hproper : ∀ s ∈ [ctx.CortexConfig.ID, ctx.DatasetVersion, ctx.Root, ctx.RawDataset.Key,
      ctx.StatusPrefix, ctx.App.ID, ctx.Environment.ID],
      ¬ strings.properPrefixOf m.ID s ∧ ¬ strings.properPrefixOf m'.ID s)
    (hcollision :
      hash.String (strings.Join (sort.Strings (calculateID.ids S ctx)) "") =
        hash.String (strings.Join (sort.Strings (calculateID.ids S ctx')) "") →
      strings.Join (sort.Strings (calculateID.ids S ctx)) "" =
        strings.Join (sort.Strings (calculateID.ids S ctx')) "") :
    (strings.Join (sort.Strings (calculateID.ids S ctx)) "" ≠
        strings.Join (sort.Strings (calculateID.ids S ctx')) "" ↔ m.ID ≠ m'.ID) ∧
    (calculateID S ctx ≠ calculateID S ctx' ↔ m.ID ≠ m'.ID) := by
  have hids : calculateID.ids S ctx = [ctx.CortexConfig.ID, ctx.DatasetVersion, ctx.Root,
      ctx.RawDataset.Key, ctx.StatusPrefix, ctx.App.ID, ctx.Environment.ID] ++ [m.ID] := by
    simp [calculateID.ids, hres]
  have hids' : calculateID.ids S ctx' = [ctx.CortexConfig.ID, ctx.DatasetVersion, ctx.Root,
      ctx.RawDataset.Key, ctx.StatusPrefix, ctx.App.ID, ctx.Environment.ID] ++ [m'.ID] := by
    simp [calculateID.ids, hres', hcortex, hversion, hroot, hraw, hstatus, happ, henv]
  have hjoin : strings.Join (sort.Strings (calculateID.ids S ctx)) "" ≠
      strings.Join (sort.Strings (calculateID.ids S ctx')) "" ↔ m.ID ≠ m'.ID := by
    rw [hids, hids', sort.Strings_append_singleton, sort.Strings_append_singleton]
    constructor
    · intro hne heq
      exact hne (by rw [heq])
    · intro hne heq
      have hdata := congrArg String.data heq
      rw [strings.Join_empty_data, strings.Join_empty_data] at hdata
      exact hne (sort.join_orderedInsert_injective _ (sort.Strings_sorted _) m.ID m'.ID
        (fun s hs => (hproper s ((sort.Strings_perm _).mem_iff.1 hs)).1)
        (fun s hs => (hproper s ((sort.Strings_perm _).mem_iff.1 hs)).2) hdata)
  refine ⟨hjoin, ?_⟩
  rw [← hjoin]
  unfold calculateID
  constructor
  · intro hne heq
    exact hne (by rw [heq])
  · intro hne heq
    exact hne (hcollision heq)

/-- C4, amended, at two runs of `New` in the small instance whose model ids
`0c4e` and `f1a2` sort into different places among the scalar ids: the two
Contexts have different identities. -/
theorem calculateID_differs_iff_model_id_witness :
    ∃ ctx ctx',
      (New demoDeps (demoConfig [⟨"0c4e"⟩]) () false).1 = some ctx ∧
      (New demoDeps (demoConfig [⟨"f1a2"⟩]) () false).1 = some ctx' ∧
      sort.Strings (calculateID.ids demoDeps ctx) =
        ["0c4e", "a1", "apps/fraud/data/v1/e1", "apps/fraud/data/v1/e1/raw_data/raw.parquet",
          "apps/fraud/resource_statuses", "cc", "e1", "v1"] ∧
      sort.Strings (calculateID.ids demoDeps ctx') =
        ["a1", "apps/fraud/data/v1/e1", "apps/fraud/data/v1/e1/raw_data/raw.parquet",
          "apps/fraud/resource_statuses", "cc", "e1", "f1a2", "v1"] ∧
      (⟨"0c4e"⟩ : Resource).ID ≠ (⟨"f1a2"⟩ : Resource).ID ∧
      calculateID demoDeps ctx ≠ calculateID demoDeps ctx' := by
  refine ⟨_, _, rfl, rfl, ?_, ?_, ?_, ?_⟩
  · decide
  · decide
  · decide
  · refine (calculateID_differs_iff_model_id demoDeps _ _ ⟨"0c4e"⟩ ⟨"f1a2"⟩ ?_ ?_ ?_ ?_
      ?_ ?_ ?_ ?_ ?_ ?_ ?_).2.2 ?_
    · rfl
    · rfl
    · rfl
    · rfl
    · rfl
    · rfl
    · rfl
    · rfl
    · rfl
    · decide
    · exact fun h => absurd h (by decide)
    · decide
